import Mathlib

/-!
Verification of the SDC (Synopsys Design Constraints) parser
(`sdc_parser.py`) against its natural-language specification.

The Python source is shallowly embedded: strings are `String` / `List Char`,
Python `float` values arising from SDC decimal literals are modelled as `ℚ`,
fallible code returns `Except`/`Option`.  The parser's `_handle_error` either
raises `ParseError` (strict mode) or logs a diagnostic and continues (lenient
mode); this is modelled by `Except Diag` for the strict abort and an explicit
accumulated `List Diag` for the lenient warnings.  Error messages that Python
builds by string formatting are modelled by the structured type `ErrMsg`
carrying the same payloads.
-/

/-! ## Character helpers -/

/-- Whitespace characters, as recognised by Python's `str.isspace` /
regex `\s` on the ASCII inputs handled by the parser. -/
def isTclSpace (c : Char) : Bool :=
  c = ' ' ∨ c = '\t' ∨ c = '\n' ∨ c = '\r' ∨ c = Char.ofNat 11 ∨ c = Char.ofNat 12

/-- Python `s.startswith(c)` for a single-character prefix `c`. -/
def startsWithChar (c : Char) (s : String) : Bool :=
  s.data.head? = some c

/-- Python `s.strip()` (strip whitespace from both ends), on char lists. -/
def stripWsL (cs : List Char) : List Char :=
  ((cs.dropWhile isTclSpace).reverse.dropWhile isTclSpace).reverse

def isBraceChar (c : Char) : Bool := c = '{' ∨ c = '}'

/-- Python `s.strip("{}")` (strip any mix of braces from both ends). -/
def stripBracesL (cs : List Char) : List Char :=
  ((cs.dropWhile isBraceChar).reverse.dropWhile isBraceChar).reverse

/-- Python `s.strip('"')`. -/
def stripQuotes (s : String) : String :=
  ⟨((s.data.dropWhile (fun c => c = '"')).reverse.dropWhile (fun c => c = '"')).reverse⟩

/-! ## Numeric literals

Python's `float()` applied to the decimal literals appearing in SDC files:
an optional sign, then digits with at most one decimal point (at least one
digit overall).  The value is modelled exactly as a rational. -/

def natOfDigits (cs : List Char) : Nat :=
  cs.foldl (fun a c => 10 * a + (c.toNat - 48)) 0

/-- Unsigned decimal literal: `10`, `2.5`, `10.`, `.5`. -/
def parseUnsigned (cs : List Char) : Option ℚ :=
  let ip := cs.takeWhile Char.isDigit
  let rest := cs.dropWhile Char.isDigit
  match rest with
  | [] => if ip = [] then none else some (natOfDigits ip : ℚ)
  | c :: fp =>
    if c = '.' ∧ fp.all Char.isDigit ∧ (ip ≠ [] ∨ fp ≠ []) then
      some ((natOfDigits ip : ℚ) + (natOfDigits fp : ℚ) / (10 : ℚ) ^ fp.length)
    else none

/-- Python `float(tok)` on a decimal literal token (fails on anything else). -/
def parseFloat (cs : List Char) : Option ℚ :=
  match cs with
  | [] => none
  | c :: rest =>
    if c = '-' then (parseUnsigned rest).map (fun q => -q)
    else if c = '+' then parseUnsigned rest
    else parseUnsigned (c :: rest)

def parseFloatS (s : String) : Option ℚ := parseFloat s.data

/-- Python `s.split()`: split on whitespace runs, dropping empty pieces. -/
def splitWsL : List Char → List Char → List (List Char)
  | [], cur => if cur = [] then [] else [cur]
  | c :: cs, cur =>
    if isTclSpace c then
      if cur = [] then splitWsL cs [] else cur :: splitWsL cs []
    else splitWsL cs (cur ++ [c])

/-! ## Preprocessor: `SDCParser._strip_comment` -/

/-- Character scan of `_strip_comment`: bracket depth `db`, brace depth `dr`
(both clamped at zero, which `Nat` subtraction gives directly), and the
inside-double-quote flag `q`.  A `#` seen at depth `(0, 0)` outside a quote
truncates the line there. -/
def stripCommentAux : List Char → Nat → Nat → Bool → List Char
  | [], _, _, _ => []
  | c :: cs, db, dr, q =>
    if c = '"' ∧ q = false then c :: stripCommentAux cs db dr true
    else if c = '"' then c :: stripCommentAux cs db dr false
    else if q = false then
      if c = '[' then c :: stripCommentAux cs (db + 1) dr q
      else if c = ']' then c :: stripCommentAux cs (db - 1) dr q
      else if c = '{' then c :: stripCommentAux cs db (dr + 1) q
      else if c = '}' then c :: stripCommentAux cs db (dr - 1) q
      else if c = '#' ∧ db = 0 ∧ dr = 0 then []
      else c :: stripCommentAux cs db dr q
    else c :: stripCommentAux cs db dr q

def stripComment (s : String) : String := ⟨stripCommentAux s.data 0 0 false⟩

/-! ## Tokenizer: `SDCParser._tokenize` -/

/-- Bracket-group scan: called just after an opening `[` with the current
depth `d` (an `Int`, since the Python counter may go negative on malformed
input); consumes up to and including the `]` that returns the depth to zero,
or the whole remainder. Returns (consumed, rest). -/
def takeBracket : List Char → Int → List Char × List Char
  | [], _ => ([], [])
  | c :: cs, d =>
    if c = '[' then
      ((c :: (takeBracket cs (d + 1)).1), (takeBracket cs (d + 1)).2)
    else if c = ']' then
      if d = 1 then ([c], cs)
      else ((c :: (takeBracket cs (d - 1)).1), (takeBracket cs (d - 1)).2)
    else ((c :: (takeBracket cs d).1), (takeBracket cs d).2)

/-- Brace-group scan, symmetric to `takeBracket`. -/
def takeBrace : List Char → Int → List Char × List Char
  | [], _ => ([], [])
  | c :: cs, d =>
    if c = '{' then
      ((c :: (takeBrace cs (d + 1)).1), (takeBrace cs (d + 1)).2)
    else if c = '}' then
      if d = 1 then ([c], cs)
      else ((c :: (takeBrace cs (d - 1)).1), (takeBrace cs (d - 1)).2)
    else ((c :: (takeBrace cs d).1), (takeBrace cs d).2)

/-- Quoted-string scan: called just after the opening `"`; a backslash that
is not the final character consumes the next character as well. -/
def takeQuoted : List Char → List Char × List Char
  | [] => ([], [])
  | c :: cs =>
    if c = '\\' then
      match cs with
      | c2 :: cs2 => ((c :: c2 :: (takeQuoted cs2).1), (takeQuoted cs2).2)
      | [] => ([c], [])
    else if c = '"' then ([c], cs)
    else ((c :: (takeQuoted cs).1), (takeQuoted cs).2)

/-- A bare-word character: not whitespace and not one of `[`, `{`, `"`. -/
def bareChar (c : Char) : Bool :=
  !(isTclSpace c) && !(c = '[') && !(c = '{') && !(c = '"')

theorem takeBracket_rest_le (cs : List Char) (d : Int) :
    (takeBracket cs d).2.length ≤ cs.length := by
  induction cs generalizing d with
  | nil => simp [takeBracket]
  | cons c cs ih =>
    simp only [takeBracket]
    split
    · exact Nat.le_succ_of_le (ih (d + 1))
    · split
      · split
        · simp
        · exact Nat.le_succ_of_le (ih (d - 1))
      · exact Nat.le_succ_of_le (ih d)

theorem takeBrace_rest_le (cs : List Char) (d : Int) :
    (takeBrace cs d).2.length ≤ cs.length := by
  induction cs generalizing d with
  | nil => simp [takeBrace]
  | cons c cs ih =>
    simp only [takeBrace]
    split
    · exact Nat.le_succ_of_le (ih (d + 1))
    · split
      · split
        · simp
        · exact Nat.le_succ_of_le (ih (d - 1))
      · exact Nat.le_succ_of_le (ih d)

theorem takeQuoted_rest_le (cs : List Char) :
    (takeQuoted cs).2.length ≤ cs.length := by
  induction cs using takeQuoted.induct with
  | case1 => simp [takeQuoted]
  | case2 c2 cs2 ih =>
    simp only [takeQuoted, if_pos rfl]
    exact Nat.le_succ_of_le (Nat.le_succ_of_le ih)
  | case3 => simp [takeQuoted]
  | case4 cs h =>
    rw [takeQuoted.eq_def]
    simp
  | case5 c cs h1 h2 ih =>
    rw [takeQuoted.eq_def]
    simp only [if_neg h1, if_neg h2]
    exact Nat.le_succ_of_le ih

theorem dropWhile_length_le (p : Char → Bool) (l : List Char) :
    (l.dropWhile p).length ≤ l.length := by
  induction l with
  | nil => simp
  | cons c cs ih =>
    rw [List.dropWhile]
    split
    · exact Nat.le_succ_of_le ih
    · simp

/-- `_tokenize`'s main loop, producing raw (possibly empty) tokens. -/
def tokenizeAux : List Char → List (List Char)
  | [] => []
  | c :: cs =>
    if isTclSpace c then tokenizeAux cs
    else if c = '[' then
      (c :: (takeBracket cs 1).1) :: tokenizeAux (takeBracket cs 1).2
    else if c = '{' then
      (c :: (takeBrace cs 1).1) :: tokenizeAux (takeBrace cs 1).2
    else if c = '"' then
      (c :: (takeQuoted cs).1) :: tokenizeAux (takeQuoted cs).2
    else
      (c :: cs.takeWhile bareChar) :: tokenizeAux (cs.dropWhile bareChar)
  termination_by cs => cs.length
  decreasing_by
  all_goals first
    | exact Nat.lt_succ_of_le (takeBracket_rest_le _ 1)
    | exact Nat.lt_succ_of_le (takeBrace_rest_le _ 1)
    | exact Nat.lt_succ_of_le (takeQuoted_rest_le _)
    | exact Nat.lt_succ_of_le (dropWhile_length_le _ _)
    | simp

/-- `SDCParser._tokenize`: bracket groups, brace groups and quoted strings
are single tokens; empty tokens are filtered out at the end. -/
def tokenize (s : String) : List String :=
  ((tokenizeAux s.data).filter (fun t => t ≠ [])).map (fun l => ⟨l⟩)

/-! ## Tcl collection helpers: `_TCL_COLLECTION_RE`, `_extract_names`,
`_split_tcl_list` -/

def collectionKeywords : List (List Char) :=
  ["get_ports".data, "get_pins".data, "get_nets".data,
   "get_cells".data, "get_clocks".data, "get_lib_cells".data]

/-- The match of `_TCL_COLLECTION_RE` against a token: `[`, optional
whitespace, one collection keyword, at least one whitespace character, then
the captured group (the rest with surrounding whitespace stripped) up to a
final `]`.  Returns the captured group. -/
def matchCollection (cs : List Char) : Option (List Char) :=
  match cs with
  | [] => none
  | c :: rest =>
    if c = '[' ∧ rest.getLast? = some ']' then
      let b := rest.dropLast.dropWhile isTclSpace
      match collectionKeywords.find? (fun k => k.isPrefixOf b) with
      | some k =>
        match b.drop k.length with
        | a :: more => if isTclSpace a then some (stripWsL (a :: more)) else none
        | [] => none
      | none => none
    else none

/-- `SDCParser._split_tcl_list`'s scan: split on whitespace at brace depth 0;
each flushed element has braces stripped from both ends.  The depth is an
`Int` as in Python (it may go negative on malformed input). -/
def splitTclCore : List Char → Int → List Char → List (List Char) → List (List Char)
  | [], _, cur, items => if cur = [] then items else items ++ [stripBracesL cur]
  | c :: cs, d, cur, items =>
    if c = '{' then splitTclCore cs (d + 1) (cur ++ [c]) items
    else if c = '}' then splitTclCore cs (d - 1) (cur ++ [c]) items
    else if isTclSpace c ∧ d = 0 then
      if cur = [] then splitTclCore cs d [] items
      else splitTclCore cs d [] (items ++ [stripBracesL cur])
    else splitTclCore cs d (cur ++ [c]) items

def splitTclList (s : List Char) : List (List Char) :=
  (splitTclCore (stripWsL s) 0 [] []).filter (fun t => t ≠ [])

/-- `SDCParser._extract_names` on char lists. -/
def extractNamesL (t0 : List Char) : List (List Char) :=
  let t := stripWsL t0
  match matchCollection t with
  | some inner => splitTclList (stripWsL inner)
  | none =>
    if t.head? = some '{' ∧ t.getLast? = some '}' then
      splitTclList (t.drop 1).dropLast
    else if t.head? = some '"' ∧ t.getLast? = some '"' then
      [(t.drop 1).dropLast]
    else if t = [] then [] else [t]

def extractNames (t : String) : List String :=
  (extractNamesL t.data).map (fun l => ⟨l⟩)

/-! ## Data model -/

/-- `ClockConstraint` record fields (a `create_clock` command). -/
structure ClockConstraint where
  name : String
  period : ℚ
  waveform : List ℚ
  source : String
deriving DecidableEq

/-- `IODelay` record fields (`set_input_delay` / `set_output_delay`). -/
structure IODelay where
  pin : String
  clock : String
  delay_value : ℚ
  delay_type : String
  min_delay : Bool
  max_delay : Bool
deriving DecidableEq

/-- `TimingException` record fields. -/
structure TimingException where
  exception_type : String
  from_list : List String
  to_list : List String
  value : Option ℚ
deriving DecidableEq

/-- `SDCConstraintSet`: the four append-only collections. -/
structure SDCConstraintSet where
  clocks : List ClockConstraint
  io_delays : List IODelay
  exceptions : List TimingException
  raw_commands : List String
deriving DecidableEq

def emptySet : SDCConstraintSet := ⟨[], [], [], []⟩

/-- The error messages the parser can report, with the payloads Python
formats into the message string. -/
inductive ErrMsg where
  | invalidPeriod (tok : String)
  | missingPeriod
  | nonNumericInFloatList (part : String)
  | missingDelayValue (cmd : String)
  | unexpectedToken (tok : String)
  | clockPeriodNotPositive (name : String) (period : ℚ)
  | clockWaveformBad (name : String) (waveform : List ℚ)
  | badDelayType (dt : String)
  | badExceptionType (et : String)
deriving DecidableEq

/-- A reported error: `ParseError(line_num, line_text, message)` in strict
mode, a logged warning in lenient mode. -/
structure Diag where
  line_num : Nat
  line_text : String
  message : ErrMsg
deriving DecidableEq

/-- `ClockConstraint.__post_init__`: rejects `period <= 0` and a waveform
that is nonempty but does not have exactly two edges. -/
def mkClockConstraint (name : String) (period : ℚ) (waveform : List ℚ)
    (source : String) : Except ErrMsg ClockConstraint :=
  if period ≤ 0 then .error (.clockPeriodNotPositive name period)
  else if waveform ≠ [] ∧ waveform.length ≠ 2 then
    .error (.clockWaveformBad name waveform)
  else .ok ⟨name, period, waveform, source⟩

/-- `IODelay.__post_init__`: `delay_type` must be `"input"` or `"output"`. -/
def mkIODelay (pin clock : String) (v : ℚ) (dt : String) (mn mx : Bool) :
    Except ErrMsg IODelay :=
  if dt = "input" ∨ dt = "output" then .ok ⟨pin, clock, v, dt, mn, mx⟩
  else .error (.badDelayType dt)

/-- `TimingException.__post_init__`: the exception type must be one of the
four valid kinds. -/
def mkTimingException (et : String) (fl tl : List String) (v : Option ℚ) :
    Except ErrMsg TimingException :=
  if et = "false_path" ∨ et = "multicycle_path" ∨ et = "max_delay" ∨ et = "min_delay"
  then .ok ⟨et, fl, tl, v⟩
  else .error (.badExceptionType et)

/-- `SDCParser._handle_error`: strict mode raises `ParseError` (modelled by
`Except.error`), lenient mode records the warning and continues (modelled by
returning the diagnostic in a list). -/
def handleError (strict : Bool) (ln : Nat) (raw : String) (m : ErrMsg) :
    Except Diag (List Diag) :=
  if strict then .error ⟨ln, raw, m⟩ else .ok [⟨ln, raw, m⟩]

/-! ## `SDCParser._parse_float_list` -/

def parseFloatListGo (strict : Bool) (ln : Nat) (raw : String) :
    List (List Char) → List ℚ → Except Diag (List ℚ × List Diag)
  | [], acc => .ok (acc, [])
  | p :: ps, acc =>
    match parseFloat p with
    | some v => parseFloatListGo strict ln raw ps (acc ++ [v])
    | none =>
      (handleError strict ln raw (.nonNumericInFloatList ⟨p⟩)).map (fun ds => ([], ds))

/-- `_parse_float_list`: strip whitespace and braces, replace commas by
spaces, split on whitespace, parse each part as a float.  On the first
non-numeric part it reports an error and yields the empty list. -/
def parseFloatList (strict : Bool) (ln : Nat) (raw : String) (token : String) :
    Except Diag (List ℚ × List Diag) :=
  let s := stripBracesL (stripWsL token.data)
  parseFloatListGo strict ln raw (splitWsL (s.map (fun c => if c = ',' then ' ' else c)) []) []

/-! ## `SDCParser._parse_create_clock` -/

/-- Mutable locals of `_parse_create_clock`'s token loop. -/
structure CCState where
  name : Option String
  period : Option ℚ
  waveform : List ℚ
  source : Option String
deriving DecidableEq

/-- The token-scanning loop of `_parse_create_clock`.  Result `none` models
`return None` (the command is skipped); the `List Diag` carries lenient-mode
warnings; `Except.error` is a strict-mode abort. -/
def ccScan (strict : Bool) (ln : Nat) (raw : String) :
    List String → CCState → List Diag → Except Diag (Option CCState × List Diag)
  | [], st, ds => .ok (some st, ds)
  | tok :: rest, st, ds =>
    if tok = "-name" then
      match rest with
      | next :: rest2 =>
        ccScan strict ln raw rest2 { st with name := some (stripQuotes next) } ds
      | [] => .ok (some st, ds)
    else if tok = "-period" then
      match rest with
      | next :: rest2 =>
        match parseFloatS next with
        | some p => ccScan strict ln raw rest2 { st with period := some p } ds
        | none =>
          (handleError strict ln raw (.invalidPeriod next)).map (fun ds1 => (none, ds ++ ds1))
      | [] => .ok (some st, ds)
    else if tok = "-waveform" then
      match rest with
      | next :: rest2 =>
        match parseFloatList strict ln raw next with
        | .error d => .error d
        | .ok (ws, ds1) => ccScan strict ln raw rest2 { st with waveform := ws } (ds ++ ds1)
      | [] => .ok (some st, ds)
    else if startsWithChar '-' tok then
      match rest with
      | next :: rest2 =>
        if startsWithChar '-' next then ccScan strict ln raw (next :: rest2) st ds
        else ccScan strict ln raw rest2 st ds
      | [] => .ok (some st, ds)
    else
      match extractNames tok with
      | [] => ccScan strict ln raw rest st ds
      | n :: _ => ccScan strict ln raw rest { st with source := some n } ds

/-- `_parse_create_clock`: scan the tokens, require `-period`, default the
name from the source and the waveform to `[0, period/2]`, then run the
record's validity checks. -/
def parseCreateClock (strict : Bool) (ln : Nat) (raw : String)
    (tokens : List String) : Except Diag (Option ClockConstraint × List Diag) :=
  match ccScan strict ln raw (tokens.drop 1) ⟨none, none, [], none⟩ [] with
  | .error d => .error d
  | .ok (none, ds) => .ok (none, ds)
  | .ok (some st, ds) =>
    match st.period with
    | none => (handleError strict ln raw .missingPeriod).map (fun ds1 => (none, ds ++ ds1))
    | some p =>
      let src := st.source.getD ""
      let name := st.name.getD (if src = "" then "unnamed_clock" else src)
      let wf := if st.waveform = [] then [0, p / 2] else st.waveform
      match mkClockConstraint name p wf src with
      | .ok c => .ok (some c, ds)
      | .error e => (handleError strict ln raw e).map (fun ds1 => (none, ds ++ ds1))

/-! ## `SDCParser._parse_io_delay` -/

/-- Mutable locals of `_parse_io_delay`'s token loop. -/
structure IOScanState where
  clock : String
  delay : Option ℚ
  is_min : Bool
  is_max : Bool
  pins : List String
deriving DecidableEq

/-- The flags of `_parse_io_delay` that consume no value argument. -/
def ioBoolFlags : List String :=
  ["-add_delay", "-network_latency_included", "-source_latency_included",
   "-rise", "-fall", "-level_sensitive", "-edge_triggered"]

/-- The token-scanning loop of `_parse_io_delay` (it reports no errors, so it
is a pure state fold). -/
def ioScan : List String → IOScanState → IOScanState
  | [], st => st
  | tok :: rest, st =>
    if tok = "-clock" then
      match rest with
      | next :: rest2 => ioScan rest2 { st with clock := (extractNames next).headD "" }
      | [] => st
    else if tok = "-max" then ioScan rest { st with is_max := true }
    else if tok = "-min" then ioScan rest { st with is_min := true }
    else if tok ∈ ioBoolFlags then ioScan rest st
    else if tok = "-reference_pin" then
      match rest with
      | _ :: rest2 => ioScan rest2 st
      | [] => st
    else if startsWithChar '[' tok ∨ startsWithChar '{' tok then
      ioScan rest { st with pins := st.pins ++ extractNames tok }
    else if startsWithChar '-' tok then
      match rest with
      | _ :: rest2 => ioScan rest2 st
      | [] => st
    else
      match parseFloatS tok with
      | some v => ioScan rest { st with delay := some v }
      | none => ioScan rest { st with pins := st.pins ++ extractNames tok }

/-- The record-building loop at the end of `_parse_io_delay`: one `IODelay`
per pin, sharing clock/value/type/flags; a record whose validity check fails
is reported and skipped. -/
def buildIODelays (strict : Bool) (ln : Nat) (raw : String) (clock : String)
    (v : ℚ) (dt : String) (mn mx : Bool) :
    List String → Except Diag (List IODelay × List Diag)
  | [] => .ok ([], [])
  | p :: ps =>
    match mkIODelay p clock v dt mn mx with
    | .ok r =>
      match buildIODelays strict ln raw clock v dt mn mx ps with
      | .error d => .error d
      | .ok (rs, ds) => .ok (r :: rs, ds)
    | .error e =>
      match handleError strict ln raw e with
      | .error d => .error d
      | .ok ds1 =>
        match buildIODelays strict ln raw clock v dt mn mx ps with
        | .error d => .error d
        | .ok (rs, ds) => .ok (rs, ds1 ++ ds)

/-- `_parse_io_delay`: scan the tokens, require a delay value, then emit one
record per collected pin name. -/
def parseIODelay (strict : Bool) (ln : Nat) (raw : String) (tokens : List String) :
    Except Diag (List IODelay × List Diag) :=
  let dt := if tokens.headD "" = "set_input_delay" then "input" else "output"
  let st := ioScan (tokens.drop 1) ⟨"", none, false, false, []⟩
  match st.delay with
  | none =>
    (handleError strict ln raw (.missingDelayValue (tokens.headD ""))).map (fun ds => ([], ds))
  | some v => buildIODelays strict ln raw st.clock v dt st.is_min st.is_max st.pins

/-! ## `SDCParser._parse_timing_exception` -/

/-- Mutable locals of `_parse_timing_exception`'s token loop. -/
structure TEState where
  from_list : List String
  to_list : List String
  value : Option ℚ
deriving DecidableEq

def teBoolFlags : List String := ["-setup", "-hold", "-rise", "-fall", "-datapath_only"]

/-- `_EXCEPTION_TYPE_MAP` (only ever consulted for the four exception
commands the dispatcher recognises). -/
def exceptionTypeMap (cmd : String) : String :=
  if cmd = "set_false_path" then "false_path"
  else if cmd = "set_multicycle_path" then "multicycle_path"
  else if cmd = "set_max_delay" then "max_delay"
  else "min_delay"

/-- The token-scanning loop of `_parse_timing_exception`. -/
def teScan (strict : Bool) (ln : Nat) (raw : String) :
    List String → TEState → Except Diag (Option TEState × List Diag)
  | [], st => .ok (some st, [])
  | tok :: rest, st =>
    if tok = "-from" then
      match rest with
      | next :: rest2 =>
        teScan strict ln raw rest2 { st with from_list := st.from_list ++ extractNames next }
      | [] => .ok (some st, [])
    else if tok = "-to" then
      match rest with
      | next :: rest2 =>
        teScan strict ln raw rest2 { st with to_list := st.to_list ++ extractNames next }
      | [] => .ok (some st, [])
    else if tok = "-through" then
      match rest with
      | _ :: rest2 => teScan strict ln raw rest2 st
      | [] => .ok (some st, [])
    else if tok ∈ teBoolFlags then teScan strict ln raw rest st
    else if startsWithChar '-' tok then
      match rest with
      | _ :: rest2 => teScan strict ln raw rest2 st
      | [] => .ok (some st, [])
    else
      match parseFloatS tok with
      | some v => teScan strict ln raw rest { st with value := some v }
      | none =>
        (handleError strict ln raw (.unexpectedToken tok)).map (fun ds => (none, ds))

/-- `_parse_timing_exception`. -/
def parseTimingException (strict : Bool) (ln : Nat) (raw : String)
    (tokens : List String) : Except Diag (Option TimingException × List Diag) :=
  let et := exceptionTypeMap (tokens.headD "")
  match teScan strict ln raw (tokens.drop 1) ⟨[], [], none⟩ with
  | .error d => .error d
  | .ok (none, ds) => .ok (none, ds)
  | .ok (some st, ds) =>
    match mkTimingException et st.from_list st.to_list st.value with
    | .ok e => .ok (some e, ds)
    | .error e => (handleError strict ln raw e).map (fun ds1 => (none, ds ++ ds1))

/-! ## `SDCParser._dispatch_command` and the parse loop -/

def ioDelayCmds : List String := ["set_input_delay", "set_output_delay"]

def exceptionCmds : List String :=
  ["set_false_path", "set_multicycle_path", "set_max_delay", "set_min_delay"]

/-- `_dispatch_command` on one logical command: route by the first token,
append the produced records, or store the command verbatim in
`raw_commands`. -/
def dispatchCommand (strict : Bool) (ln : Nat) (command : String)
    (res : SDCConstraintSet) : Except Diag (SDCConstraintSet × List Diag) :=
  match tokenize command with
  | [] => .ok (res, [])
  | cmd :: restTokens =>
    if cmd = "create_clock" then
      match parseCreateClock strict ln command (cmd :: restTokens) with
      | .error d => .error d
      | .ok (some c, ds) => .ok ({ res with clocks := res.clocks ++ [c] }, ds)
      | .ok (none, ds) => .ok (res, ds)
    else if cmd ∈ ioDelayCmds then
      match parseIODelay strict ln command (cmd :: restTokens) with
      | .error d => .error d
      | .ok (rs, ds) => .ok ({ res with io_delays := res.io_delays ++ rs }, ds)
    else if cmd ∈ exceptionCmds then
      match parseTimingException strict ln command (cmd :: restTokens) with
      | .error d => .error d
      | .ok (some e, ds) => .ok ({ res with exceptions := res.exceptions ++ [e] }, ds)
      | .ok (none, ds) => .ok (res, ds)
    else .ok ({ res with raw_commands := res.raw_commands ++ [command] }, [])

/-- The dispatch loop of `_parse_from_iter` over the preprocessed logical
commands, threading the accumulator and the lenient-mode diagnostics; a
strict-mode `ParseError` aborts the whole parse. -/
def dispatchAll (strict : Bool) :
    List (Nat × String) → SDCConstraintSet → List Diag →
    Except Diag (SDCConstraintSet × List Diag)
  | [], res, ds => .ok (res, ds)
  | (ln, cmd) :: rest, res, ds =>
    match dispatchCommand strict ln cmd res with
    | .error d => .error d
    | .ok (res2, ds1) => dispatchAll strict rest res2 (ds ++ ds1)

/-! ## Helper lemmas -/

theorem parseUnsigned_nonneg (cs : List Char) (v : ℚ)
    (h : parseUnsigned cs = some v) : 0 ≤ v := by
  simp only [parseUnsigned.eq_def] at h
  split at h
  · split at h
    · exact absurd h (by simp)
    · simp only [Option.some.injEq] at h
      subst h; positivity
  · split at h
    · simp only [Option.some.injEq] at h
      subst h; positivity
    · exact absurd h (by simp)

theorem parseFloatS_nonneg (s : String) (v : ℚ)
    (hd : startsWithChar '-' s = false) (h : parseFloatS s = some v) : 0 ≤ v := by
  unfold parseFloatS parseFloat at h
  split at h
  · exact absurd h (by simp)
  · rename_i c rest heq
    have hc : ¬ c = '-' := by
      intro rfl1
      simp [startsWithChar, heq, rfl1] at hd
    rw [if_neg hc] at h
    split at h
    · exact parseUnsigned_nonneg _ _ h
    · exact parseUnsigned_nonneg _ _ h

/-- `ioScan` step: `-clock` consumes its argument into the clock field. -/
theorem ioScan_clock (next : String) (rest : List String) (st : IOScanState) :
    ioScan ("-clock" :: next :: rest) st =
      ioScan rest { st with clock := (extractNames next).headD "" } := by
  simp [ioScan]

/-- `ioScan` step: a bare token that parses as a number overwrites the
delay value, whatever it was before. -/
theorem ioScan_value (tok : String) (rest : List String) (st : IOScanState) (v : ℚ)
    (h1 : startsWithChar '-' tok = false) (h2 : startsWithChar '[' tok = false)
    (h3 : startsWithChar '{' tok = false) (hv : parseFloatS tok = some v) :
    ioScan (tok :: rest) st = ioScan rest { st with delay := some v } := by
  have e1 : tok ≠ "-clock" := by rintro rfl; exact absurd h1 (by decide)
  have e2 : tok ≠ "-max" := by rintro rfl; exact absurd h1 (by decide)
  have e3 : tok ≠ "-min" := by rintro rfl; exact absurd h1 (by decide)
  have e4 : tok ∉ ioBoolFlags := by
    intro hm; simp [ioBoolFlags] at hm
    rcases hm with rfl | rfl | rfl | rfl | rfl | rfl | rfl <;> exact absurd h1 (by decide)
  have e5 : tok ≠ "-reference_pin" := by rintro rfl; exact absurd h1 (by decide)
  rw [ioScan.eq_def]
  simp [e1, e2, e3, e4, e5, h1, h2, h3, hv]

/-- `ioScan` step: a token starting with `-` that is not one of the
recognised flags consumes the following token unconditionally (even when
that token is itself a recognised flag). -/
theorem ioScan_unknown_flag (tok next : String) (rest : List String) (st : IOScanState)
    (h1 : startsWithChar '-' tok = true)
    (h2 : tok ∉ (["-clock", "-max", "-min", "-reference_pin"] : List String))
    (h3 : tok ∉ ioBoolFlags) :
    ioScan (tok :: next :: rest) st = ioScan rest st := by
  simp only [List.mem_cons, List.mem_singleton] at h2
  push_neg at h2
  obtain ⟨e1, e2, e3, e5⟩ := h2
  have g1 : startsWithChar '[' tok = false := by
    cases hh : startsWithChar '[' tok
    · rfl
    · exfalso; simp [startsWithChar] at h1 hh; rw [hh] at h1; simp at h1
  have g2 : startsWithChar '{' tok = false := by
    cases hh : startsWithChar '{' tok
    · rfl
    · exfalso; simp [startsWithChar] at h1 hh; rw [hh] at h1; simp at h1
  rw [ioScan.eq_def]
  simp [e1, e2, e3, e5, h3, h1, g1, g2]

/-- Every delay value the io-delay scan can hold is non-negative: it can
only come from a bare token that does not start with `-`. -/
theorem ioScan_delay_nonneg : ∀ (ts : List String) (st : IOScanState),
    (∀ w, st.delay = some w → 0 ≤ w) →
    ∀ v, (ioScan ts st).delay = some v → 0 ≤ v := by
  intro ts st
  induction ts, st using ioScan.induct with
  | case1 st => intro h0 v hv; rw [ioScan] at hv; exact h0 v hv
  | case2 st next rest2 ih =>
    intro h0 v hv
    rw [ioScan_clock] at hv
    exact ih (fun w hw => h0 w hw) v hv
  | case3 st =>
    intro h0 v hv
    rw [ioScan.eq_def] at hv
    simp at hv
    exact h0 v hv
  | case4 rest st hne ih =>
    intro h0 v hv
    rw [ioScan.eq_def] at hv
    simp at hv
    exact ih (fun w hw => h0 w hw) v hv
  | case5 rest st hn1 hn2 ih =>
    intro h0 v hv
    rw [ioScan.eq_def] at hv
    simp at hv
    exact ih (fun w hw => h0 w hw) v hv
  | case6 tok rest st hn1 hn2 hn3 hmem ih =>
    intro h0 v hv
    rw [ioScan.eq_def] at hv
    simp [hn1, hn2, hn3, hmem] at hv
    exact ih h0 v hv
  | case7 st next rest2 hn1 hn2 hn3 hn4 ih =>
    intro h0 v hv
    rw [ioScan.eq_def] at hv
    simp [hn4] at hv
    exact ih h0 v hv
  | case8 st hn1 hn2 hn3 hn4 =>
    intro h0 v hv
    rw [ioScan.eq_def] at hv
    simp [hn4] at hv
    exact h0 v hv
  | case9 tok rest st hn1 hn2 hn3 hn4 hn5 hgrp ih =>
    intro h0 v hv
    rw [ioScan.eq_def] at hv
    simp [hn1, hn2, hn3, hn4, hn5, hgrp] at hv
    exact ih (fun w hw => h0 w hw) v hv
  | case10 tok st hn1 hn2 hn3 hn4 hn5 hgrp hdash next rest2 ih =>
    intro h0 v hv
    rw [ioScan.eq_def] at hv
    simp [hn1, hn2, hn3, hn4, hn5, hgrp, hdash] at hv
    exact ih h0 v hv
  | case11 tok st hn1 hn2 hn3 hn4 hn5 hgrp hdash =>
    intro h0 v hv
    rw [ioScan.eq_def] at hv
    simp [hn1, hn2, hn3, hn4, hn5, hgrp, hdash] at hv
    exact h0 v hv
  | case12 tok rest st hn1 hn2 hn3 hn4 hn5 hgrp hdash w hw ih =>
    intro h0 v hv
    rw [ioScan.eq_def] at hv
    simp [hn1, hn2, hn3, hn4, hn5, hgrp, hdash, hw] at hv
    refine ih (fun u hu => ?_) v hv
    simp only [Option.some.injEq] at hu
    have hdf : startsWithChar '-' tok = false := by
      cases hx : startsWithChar '-' tok
      · rfl
      · exact absurd hx hdash
    exact hu ▸ parseFloatS_nonneg tok w hdf hw
  | case13 tok rest st hn1 hn2 hn3 hn4 hn5 hgrp hdash hw ih =>
    intro h0 v hv
    rw [ioScan.eq_def] at hv
    simp [hn1, hn2, hn3, hn4, hn5, hgrp, hdash, hw] at hv
    exact ih (fun w hw2 => h0 w hw2) v hv

/-- When the delay type is one of the two valid kinds (as it always is when
called from `parseIODelay`), the record-building loop succeeds and produces
exactly one record per pin, all sharing the same fields. -/
theorem buildIODelays_ok (strict : Bool) (ln : Nat) (raw : String) (clock : String)
    (v : ℚ) (dt : String) (mn mx : Bool) (pins : List String)
    (hdt : dt = "input" ∨ dt = "output") :
    buildIODelays strict ln raw clock v dt mn mx pins =
      .ok (pins.map (fun p => ⟨p, clock, v, dt, mn, mx⟩), []) := by
  induction pins with
  | nil => simp [buildIODelays]
  | cons p ps ih =>
    rw [buildIODelays.eq_def]
    simp only [mkIODelay, if_pos hdt, ih, List.map_cons]

/-- The shape of a successful `parseIODelay`: if the scan found no delay the
(lenient) result is empty; if it found `v`, the output is one record per
scanned pin, sharing the scanned clock, the value `v`, the command's delay
type and the scanned flags. -/
theorem parseIODelay_ok_shape (strict : Bool) (ln : Nat) (raw : String)
    (tokens : List String) (out : List IODelay) (ds : List Diag)
    (h : parseIODelay strict ln raw tokens = .ok (out, ds)) :
    ((ioScan (tokens.drop 1) ⟨"", none, false, false, []⟩).delay = none → out = []) ∧
    (∀ v, (ioScan (tokens.drop 1) ⟨"", none, false, false, []⟩).delay = some v →
      out = (ioScan (tokens.drop 1) ⟨"", none, false, false, []⟩).pins.map
        (fun p => ⟨p, (ioScan (tokens.drop 1) ⟨"", none, false, false, []⟩).clock, v,
          if tokens.headD "" = "set_input_delay" then "input" else "output",
          (ioScan (tokens.drop 1) ⟨"", none, false, false, []⟩).is_min,
          (ioScan (tokens.drop 1) ⟨"", none, false, false, []⟩).is_max⟩)) := by
  simp only [parseIODelay] at h
  constructor
  · intro hnone
    rw [hnone] at h
    cases strict <;> simp_all [handleError, Except.map]
  · intro v hv
    rw [hv] at h
    dsimp only at h
    rw [buildIODelays_ok strict ln raw _ v _ _ _ _ (by split <;> simp)] at h
    simp only [Except.ok.injEq, Prod.mk.injEq] at h
    exact h.1.symm


/-- Invariants of the `create_clock` token scan: a successful scan that
never saw a `-waveform` token keeps the incoming waveform, and one that
never saw a `-period` token keeps the incoming period. -/
theorem ccScan_inv (strict : Bool) (ln : Nat) (raw : String) :
    ∀ (ts : List String) (st : CCState) (ds : List Diag),
    ∀ st' ds', ccScan strict ln raw ts st ds = .ok (some st', ds') →
    ("-waveform" ∉ ts → st'.waveform = st.waveform) ∧
    ("-period" ∉ ts → st'.period = st.period) := by
  intro ts st ds
  induction ts, st, ds using ccScan.induct strict ln raw with
  | case1 st ds =>
    intro st' ds' h
    rw [ccScan] at h
    simp at h
    obtain ⟨h1, h2⟩ := h
    simp [h1]
  | case2 st ds next rest2 ih =>
    intro st' ds' h
    rw [ccScan.eq_def] at h
    simp at h
    have := ih st' ds' h
    simp_all [List.mem_cons]
  | case3 st ds =>
    intro st' ds' h
    rw [ccScan.eq_def] at h
    simp at h
    obtain ⟨h1, h2⟩ := h
    simp [h1]
  | case4 st ds next rest2 v hv hne ih =>
    intro st' ds' h
    rw [ccScan.eq_def] at h
    simp [hv] at h
    have := ih st' ds' h
    simp_all [List.mem_cons]
  | case5 st ds next rest2 hv hne =>
    intro st' ds' h
    rw [ccScan.eq_def] at h
    cases strict <;> simp [hv, handleError, Except.map] at h
  | case6 st ds hne =>
    intro st' ds' h
    rw [ccScan.eq_def] at h
    simp at h
    obtain ⟨h1, h2⟩ := h
    simp [h1]
  | case7 st ds next rest2 d hfl hn1 hn2 =>
    intro st' ds' h
    rw [ccScan.eq_def] at h
    simp [hfl] at h
  | case8 st ds next rest2 ws ds1 hfl hn1 hn2 ih =>
    intro st' ds' h
    rw [ccScan.eq_def] at h
    simp [hfl] at h
    have := ih st' ds' h
    simp_all [List.mem_cons]
  | case9 st ds hn1 hn2 =>
    intro st' ds' h
    rw [ccScan.eq_def] at h
    simp at h
    obtain ⟨h1, h2⟩ := h
    simp [h1]
  | case10 tok st ds hn1 hn2 hn3 hdash next rest2 hnext ih =>
    intro st' ds' h
    rw [ccScan.eq_def] at h
    simp [hn1, hn2, hn3, hdash, hnext] at h
    have := ih st' ds' h
    simp_all [List.mem_cons]
  | case11 tok st ds hn1 hn2 hn3 hdash next rest2 hnext ih =>
    intro st' ds' h
    rw [ccScan.eq_def] at h
    simp [hn1, hn2, hn3, hdash, hnext] at h
    have := ih st' ds' h
    simp_all [List.mem_cons]
  | case12 tok st ds hn1 hn2 hn3 hdash =>
    intro st' ds' h
    rw [ccScan.eq_def] at h
    simp [hn1, hn2, hn3, hdash] at h
    obtain ⟨h1, h2⟩ := h
    simp [h1]
  | case13 tok rest st ds hn1 hn2 hn3 hdash hnames ih =>
    intro st' ds' h
    rw [ccScan.eq_def] at h
    simp [hn1, hn2, hn3, hdash, hnames] at h
    have := ih st' ds' h
    simp_all [List.mem_cons]
  | case14 tok rest st ds hn1 hn2 hn3 hdash n tail hnames ih =>
    intro st' ds' h
    rw [ccScan.eq_def] at h
    simp [hn1, hn2, hn3, hdash, hnames] at h
    have := ih st' ds' h
    simp_all [List.mem_cons]

/-- `ccScan` step: an unrecognised flag followed by another flag-looking
token consumes only itself. -/
theorem ccScan_unknown_flag_keep (strict : Bool) (ln : Nat) (raw : String)
    (tok next : String) (rest : List String) (st : CCState) (ds : List Diag)
    (h1 : startsWithChar '-' tok = true) (e1 : tok ≠ "-name") (e2 : tok ≠ "-period")
    (e3 : tok ≠ "-waveform") (hn : startsWithChar '-' next = true) :
    ccScan strict ln raw (tok :: next :: rest) st ds =
      ccScan strict ln raw (next :: rest) st ds := by
  rw [ccScan.eq_def]
  simp [e1, e2, e3, h1, hn]

/-- `ccScan` step: an unrecognised flag followed by a non-flag token
consumes both. -/
theorem ccScan_unknown_flag_consume (strict : Bool) (ln : Nat) (raw : String)
    (tok next : String) (rest : List String) (st : CCState) (ds : List Diag)
    (h1 : startsWithChar '-' tok = true) (e1 : tok ≠ "-name") (e2 : tok ≠ "-period")
    (e3 : tok ≠ "-waveform") (hn : startsWithChar '-' next = false) :
    ccScan strict ln raw (tok :: next :: rest) st ds =
      ccScan strict ln raw rest st ds := by
  rw [ccScan.eq_def]
  simp [e1, e2, e3, h1, hn]

/-- `teScan` step: an unrecognised flag consumes the following token
unconditionally. -/
theorem teScan_unknown_flag (strict : Bool) (ln : Nat) (raw : String)
    (tok next : String) (rest : List String) (st : TEState)
    (h1 : startsWithChar '-' tok = true)
    (h2 : tok ∉ (["-from", "-to", "-through"] : List String))
    (h3 : tok ∉ teBoolFlags) :
    teScan strict ln raw (tok :: next :: rest) st = teScan strict ln raw rest st := by
  simp only [List.mem_cons, List.mem_singleton] at h2
  push_neg at h2
  obtain ⟨e1, e2, e3⟩ := h2
  rw [teScan.eq_def]
  simp [e1, e2, e3, h3, h1]

/-- The shape of a successful `parseCreateClock`: the scan succeeded, the
scanned period `p` is positive, and the record carries `p` together with the
scanned waveform (defaulted to `[0, p/2]` when the scan left it empty). -/
theorem parseCreateClock_ok_shape (strict : Bool) (ln : Nat) (raw : String)
    (ts : List String) (r : ClockConstraint) (ds : List Diag)
    (h : parseCreateClock strict ln raw ts = .ok (some r, ds)) :
    ∃ st ds0, ccScan strict ln raw (ts.drop 1) ⟨none, none, [], none⟩ [] = .ok (some st, ds0) ∧
      ∃ p, st.period = some p ∧ 0 < p ∧ r.period = p ∧
        r.waveform = (if st.waveform = [] then [0, p / 2] else st.waveform) := by
  simp only [parseCreateClock] at h
  cases hscan : ccScan strict ln raw (ts.drop 1) ⟨none, none, [], none⟩ [] with
  | error d => rw [hscan] at h; exact absurd h (by simp)
  | ok pr =>
    obtain ⟨ost, ds0⟩ := pr
    rw [hscan] at h
    cases ost with
    | none => simp at h
    | some st =>
      dsimp only at h
      refine ⟨st, ds0, rfl, ?_⟩
      cases hper : st.period with
      | none =>
        rw [hper] at h
        cases strict <;> simp [handleError, Except.map] at h
      | some p =>
        rw [hper] at h
        dsimp only at h
        refine ⟨p, rfl, ?_⟩
        cases hmk : mkClockConstraint
            (st.name.getD (if st.source.getD "" = "" then "unnamed_clock" else st.source.getD ""))
            p (if st.waveform = [] then [0, p / 2] else st.waveform) (st.source.getD "") with
        | error e =>
          rw [hmk] at h
          cases strict <;> simp [handleError, Except.map] at h
        | ok c =>
          rw [hmk] at h
          simp only [Except.ok.injEq, Prod.mk.injEq, Option.some.injEq] at h
          obtain ⟨h1, h2⟩ := h
          subst h1
          unfold mkClockConstraint at hmk
          by_cases hple : p ≤ 0
          · rw [if_pos hple] at hmk
            exact absurd hmk (by simp)
          · rw [if_neg hple] at hmk
            by_cases hwv : ((if st.waveform = [] then [0, p / 2] else st.waveform) ≠ [] ∧
                (if st.waveform = [] then [0, p / 2] else st.waveform).length ≠ 2)
            · rw [if_pos hwv] at hmk
              exact absurd hmk (by simp)
            · rw [if_neg hwv] at hmk
              simp only [Except.ok.injEq] at hmk
              subst hmk
              exact ⟨not_le.mp hple, rfl, rfl⟩

/-- Comment stripping only ever truncates: the result is a prefix of the
input line. -/
theorem stripCommentAux_of (cs : List Char) :
    ∀ (db dr : Nat) (q : Bool), ∃ t, cs = stripCommentAux cs db dr q ++ t := by
  induction cs with
  | nil => intro db dr q; exact ⟨[], rfl⟩
  | cons c cs ih =>
    intro db dr q
    rw [stripCommentAux.eq_def]
    dsimp only
    split_ifs with h1 h2 h3 h4 h5 h6 h7 h8
    · obtain ⟨t, ht⟩ := ih db dr true
      exact ⟨t, by rw [List.cons_append, ← ht]⟩
    · obtain ⟨t, ht⟩ := ih db dr false
      exact ⟨t, by rw [List.cons_append, ← ht]⟩
    · obtain ⟨t, ht⟩ := ih (db + 1) dr q
      exact ⟨t, by rw [List.cons_append, ← ht]⟩
    · obtain ⟨t, ht⟩ := ih (db - 1) dr q
      exact ⟨t, by rw [List.cons_append, ← ht]⟩
    · obtain ⟨t, ht⟩ := ih db (dr + 1) q
      exact ⟨t, by rw [List.cons_append, ← ht]⟩
    · obtain ⟨t, ht⟩ := ih db (dr - 1) q
      exact ⟨t, by rw [List.cons_append, ← ht]⟩
    · exact ⟨c :: cs, rfl⟩
    · obtain ⟨t, ht⟩ := ih db dr q
      exact ⟨t, by rw [List.cons_append, ← ht]⟩
    · obtain ⟨t, ht⟩ := ih db dr q
      exact ⟨t, by rw [List.cons_append, ← ht]⟩

/-! ## Claims -/

/-- C1 (counterexample): tokenizing the command does give the four claimed
tokens, but applying the Tcl collection resolver to the second token yields
the single name `"clk_a clk_b"`, not the two names `"clk_a"`, `"clk_b"`:
inside the collection-regex path the brace group is passed through to
`_split_tcl_list` with its braces still attached, so the embedded space sits
at brace depth 1 and is not a separator. -/
theorem c1_counterexample :
    extractNames "[get_clocks {clk_a clk_b}]" = ["clk_a clk_b"] ∧
    (["clk_a clk_b"] : List String) ≠ ["clk_a", "clk_b"] := by
  constructor
  · simp [extractNames, extractNamesL, matchCollection, collectionKeywords, stripWsL,
      splitTclList, splitTclCore, stripBracesL, isBraceChar, isTclSpace]
  · decide

/-- C1 (amended): tokenizing
`"-from [get_clocks {clk_a clk_b}] -to [get_clocks clk_c]"` yields exactly
the four tokens `-from`, `[get_clocks {clk_a clk_b}]`, `-to`,
`[get_clocks clk_c]` in that order, and applying the Tcl collection
resolver to the second token yields exactly the one name `"clk_a clk_b"`
(the braces are stripped from the element but the embedded space is kept,
because the whole brace group sits at brace depth 1 during the split). -/
theorem c1_tokenize_and_resolve :
    tokenize "-from [get_clocks {clk_a clk_b}] -to [get_clocks clk_c]" =
      ["-from", "[get_clocks {clk_a clk_b}]", "-to", "[get_clocks clk_c]"] ∧
    extractNames "[get_clocks {clk_a clk_b}]" = ["clk_a clk_b"] := by
  constructor
  · simp [tokenize, tokenizeAux, takeBracket, takeBrace, takeQuoted, bareChar, isTclSpace]
  · simp [extractNames, extractNamesL, matchCollection, collectionKeywords, stripWsL,
      splitTclList, splitTclCore, stripBracesL, isBraceChar, isTclSpace]

/-- C8: during comment stripping, a `#` truncates the line exactly when it
is met at bracket depth 0, brace depth 0 and outside a double-quoted string
(first conjunct); stripping only truncates, never edits, the text before
the cut (second conjunct); concretely, the `#` inside
`[get_ports {a#b}]` is preserved while the `#` after the closed, balanced
command starts a comment (third conjunct). -/
theorem c8_comment_start :
    (∀ (cs : List Char) (db dr : Nat) (q : Bool),
      stripCommentAux ('#' :: cs) db dr q = [] ↔ (db = 0 ∧ dr = 0 ∧ q = false)) ∧
    (∀ s : String, ∃ t, s.data = (stripComment s).data ++ t) ∧
    stripComment "set_false_path [get_ports \x7ba#b\x7d] # note" =
      "set_false_path [get_ports \x7ba#b\x7d] " := by
  refine ⟨?_, ?_, ?_⟩
  · intro cs db dr q
    rw [stripCommentAux.eq_def]
    cases q <;> by_cases h1 : db = 0 <;> by_cases h2 : dr = 0 <;> simp [h1, h2]
  · intro s
    exact stripCommentAux_of s.data 0 0 false
  · decide

/-- C4: on an input whose first logical command is a `create_clock` with no
`-period`, strict mode aborts with a `ParseError` carrying the line number,
the offending text and the message, before any later command is parsed
(the result does not depend on `rest`); lenient mode records one diagnostic
and parses the remaining commands from an unchanged constraint set — in
particular the bad command contributes no record and is not added to
`raw_commands`. -/
theorem c4_strict_abort_lenient_skip :
    ∀ (ln : Nat) (rest : List (Nat × String)) (res : SDCConstraintSet) (ds : List Diag),
    dispatchAll true ((ln, "create_clock -name clk_bad [get_ports c]") :: rest) res ds =
      .error ⟨ln, "create_clock -name clk_bad [get_ports c]", .missingPeriod⟩ ∧
    dispatchAll false ((ln, "create_clock -name clk_bad [get_ports c]") :: rest) res ds =
      dispatchAll false rest res
        (ds ++ [⟨ln, "create_clock -name clk_bad [get_ports c]", .missingPeriod⟩]) := by
  intro ln rest res ds
  constructor <;>
    simp [dispatchAll, dispatchCommand, tokenize, tokenizeAux, takeBracket, takeBrace,
      takeQuoted, bareChar, isTclSpace, parseCreateClock, ccScan, stripQuotes,
      extractNames, extractNamesL, matchCollection, collectionKeywords, splitTclList,
      splitTclCore, stripWsL, stripBracesL, isBraceChar, startsWithChar, handleError,
      parseFloatS, parseFloat, parseUnsigned, ioDelayCmds, exceptionCmds, Except.map]

/-- C5: a `create_clock` record produced from a command with no `-waveform`
flag always carries the defaulted waveform `[0, period/2]` (first conjunct);
and for any token `ptok` denoting a positive number `p`, the representative
command `create_clock -period ptok clk` produces a record with
`period = p` and waveform `[0, p/2]` (second conjunct). -/
theorem c5_period_and_default_waveform :
    (∀ (strict : Bool) (ln : Nat) (raw : String) (ts : List String)
        (r : ClockConstraint) (ds : List Diag),
      parseCreateClock strict ln raw ts = .ok (some r, ds) →
      "-waveform" ∉ ts → r.waveform = [0, r.period / 2]) ∧
    (∀ (strict : Bool) (ln : Nat) (raw : String) (ptok : String) (p : ℚ),
      parseFloatS ptok = some p → 0 < p →
      parseCreateClock strict ln raw ["create_clock", "-period", ptok, "clk"] =
        .ok (some ⟨"clk", p, [0, p / 2], "clk"⟩, [])) := by
  constructor
  · intro strict ln raw ts r ds h hwv
    obtain ⟨st, ds0, hscan, p, hper, hpos, hrp, hrw⟩ :=
      parseCreateClock_ok_shape strict ln raw ts r ds h
    have hwf : st.waveform = [] := by
      simpa using
        (ccScan_inv strict ln raw (ts.drop 1) ⟨none, none, [], none⟩ [] st ds0 hscan).1
          (fun hm => hwv (List.drop_subset _ _ hm))
    rw [hwf] at hrw
    simp only [if_pos rfl] at hrw
    rw [hrp]
    exact hrw
  · intro strict ln raw ptok p hp hpos
    have hple : ¬ p ≤ 0 := not_le.mpr hpos
    simp [parseCreateClock, ccScan, hp, startsWithChar, extractNames, extractNamesL,
      matchCollection, collectionKeywords, stripWsL, splitTclList, splitTclCore,
      stripBracesL, isBraceChar, isTclSpace, mkClockConstraint, hple, stripQuotes,
      handleError, Except.map]

/-- Witness for C5: the second conjunct at `-period 10.0`. -/
theorem c5_witness :
    parseCreateClock false 1 "create_clock -period 10.0 clk"
        ["create_clock", "-period", "10.0", "clk"] =
      .ok (some ⟨"clk", 10, [0, 10 / 2], "clk"⟩, []) :=
  c5_period_and_default_waveform.2 false 1 "create_clock -period 10.0 clk" "10.0" 10
    (by simp [parseFloatS, parseFloat, parseUnsigned, natOfDigits]) (by norm_num)

/-- C9: constructing a `ClockConstraint` with `period ≤ 0` fails with the
domain error (first conjunct), and consequently every clock record that
`_parse_create_clock` ever returns has a strictly positive period (second
conjunct) — the period is never silently clamped. -/
theorem c9_nonpositive_period_rejected :
    (∀ (name : String) (p : ℚ) (wf : List ℚ) (src : String), p ≤ 0 →
      mkClockConstraint name p wf src = .error (.clockPeriodNotPositive name p)) ∧
    (∀ (strict : Bool) (ln : Nat) (raw : String) (ts : List String)
        (r : ClockConstraint) (ds : List Diag),
      parseCreateClock strict ln raw ts = .ok (some r, ds) → 0 < r.period) := by
  constructor
  · intro name p wf src hp
    unfold mkClockConstraint
    rw [if_pos hp]
  · intro strict ln raw ts r ds h
    obtain ⟨st, ds0, hscan, p, hper, hpos, hrp, hrw⟩ :=
      parseCreateClock_ok_shape strict ln raw ts r ds h
    rw [hrp]
    exact hpos

/-- Witness for C9: the first conjunct at period `-1`. -/
theorem c9_witness :
    mkClockConstraint "clk_neg" (-1) [] "" =
      .error (.clockPeriodNotPositive "clk_neg" (-1)) :=
  c9_nonpositive_period_rejected.1 "clk_neg" (-1) [] "" (by norm_num)

/-- C2 (counterexample): dispatching
`set_input_delay -clock clk_sys -max 2.5 [get_ports {a b c}]` appends
exactly ONE `IODelay` record, whose pin is the single resolved name
`"a b c"` — not three records, because the collection resolver keeps
`{a b c}` as one name (the braces reach `_split_tcl_list` unstripped). -/
theorem c2_counterexample :
    parseIODelay false 1 "set_input_delay -clock clk_sys -max 2.5 [get_ports {a b c}]"
        (tokenize "set_input_delay -clock clk_sys -max 2.5 [get_ports {a b c}]") =
      .ok ([⟨"a b c", "clk_sys", 2.5, "input", false, true⟩], []) ∧
    ([(⟨"a b c", "clk_sys", 2.5, "input", false, true⟩ : IODelay)]).length ≠ 3 := by
  constructor
  · simp [parseIODelay, ioScan, tokenize, tokenizeAux, takeBracket, takeBrace, takeQuoted,
      bareChar, isTclSpace, startsWithChar, extractNames, extractNamesL, matchCollection,
      collectionKeywords, stripWsL, splitTclList, splitTclCore, stripBracesL, isBraceChar,
      ioBoolFlags, parseFloatS, parseFloat, parseUnsigned, natOfDigits, buildIODelays,
      mkIODelay, handleError, Except.map] <;> norm_num
  · decide

/-- C2 (amended): the command of the counterexample produces exactly one
record with pin `"a b c"`, `delay_value = 2.5`, `max_delay = true`,
`min_delay = false` (first conjunct); in general, every successful
`set_input_delay`/`set_output_delay` parse emits records that all share the
same clock, delay value, delay type and min/max flags, and — whenever the
delay value was found — exactly one record per resolved pin name, in order
(second conjunct). -/
theorem c2_io_records_share_fields :
    (parseIODelay false 1 "set_input_delay -clock clk_sys -max 2.5 [get_ports {a b c}]"
        (tokenize "set_input_delay -clock clk_sys -max 2.5 [get_ports {a b c}]") =
      .ok ([⟨"a b c", "clk_sys", 2.5, "input", false, true⟩], [])) ∧
    (∀ (strict : Bool) (ln : Nat) (raw : String) (tokens : List String)
        (out : List IODelay) (ds : List Diag),
      parseIODelay strict ln raw tokens = .ok (out, ds) →
      (∀ r1 ∈ out, ∀ r2 ∈ out,
        r1.clock = r2.clock ∧ r1.delay_value = r2.delay_value ∧
        r1.delay_type = r2.delay_type ∧ r1.min_delay = r2.min_delay ∧
        r1.max_delay = r2.max_delay) ∧
      ((ioScan (tokens.drop 1) ⟨"", none, false, false, []⟩).delay ≠ none →
        out.map (fun r => r.pin) =
          (ioScan (tokens.drop 1) ⟨"", none, false, false, []⟩).pins)) := by
  constructor
  · simp [parseIODelay, ioScan, tokenize, tokenizeAux, takeBracket, takeBrace, takeQuoted,
      bareChar, isTclSpace, startsWithChar, extractNames, extractNamesL, matchCollection,
      collectionKeywords, stripWsL, splitTclList, splitTclCore, stripBracesL, isBraceChar,
      ioBoolFlags, parseFloatS, parseFloat, parseUnsigned, natOfDigits, buildIODelays,
      mkIODelay, handleError, Except.map] <;> norm_num
  · intro strict ln raw tokens out ds h
    obtain ⟨hnone, hsome⟩ := parseIODelay_ok_shape strict ln raw tokens out ds h
    cases hd : (ioScan (tokens.drop 1) ⟨"", none, false, false, []⟩).delay with
    | none =>
      rw [hnone hd]
      constructor
      · intro r1 h1
        exact absurd h1 (by simp)
      · intro hne
        exact absurd rfl hne
    | some v =>
      rw [hsome v hd]
      constructor
      · intro r1 h1 r2 h2
        simp only [List.mem_map] at h1 h2
        obtain ⟨p1, _, e1⟩ := h1
        obtain ⟨p2, _, e2⟩ := h2
        rw [← e1, ← e2]
        exact ⟨rfl, rfl, rfl, rfl, rfl⟩
      · intro _
        simp [List.map_map, Function.comp_def]

/-- Witness for C2: the general part applied to the counterexample command;
the single record's pin list is exactly the scan's resolved pin list. -/
theorem c2_witness :
    ([(⟨"a b c", "clk_sys", 2.5, "input", false, true⟩ : IODelay)]).map (fun r => r.pin) =
      (ioScan ((tokenize "set_input_delay -clock clk_sys -max 2.5 [get_ports {a b c}]").drop 1)
        ⟨"", none, false, false, []⟩).pins :=
  (c2_io_records_share_fields.2 false 1
      "set_input_delay -clock clk_sys -max 2.5 [get_ports {a b c}]"
      (tokenize "set_input_delay -clock clk_sys -max 2.5 [get_ports {a b c}]")
      [⟨"a b c", "clk_sys", 2.5, "input", false, true⟩] []
      c2_io_records_share_fields.1).2
    (by simp [ioScan, tokenize, tokenizeAux, takeBracket, takeBrace, takeQuoted, bareChar,
      isTclSpace, startsWithChar, extractNames, extractNamesL, matchCollection,
      collectionKeywords, stripWsL, splitTclList, splitTclCore, stripBracesL, isBraceChar,
      ioBoolFlags, parseFloatS, parseFloat, parseUnsigned, natOfDigits])

/-- C3 (counterexample): in lenient mode,
`create_clock -period 10 -waveform {a b} clk` has a non-numeric token where
a number is required, and the error reporter is invoked (the diagnostic is
emitted) — yet the command is NOT skipped: a clock record with the waveform
silently defaulted to `[0, 5]` is still appended to the constraint set. -/
theorem c3_counterexample :
    dispatchCommand false 7 "create_clock -period 10 -waveform {a b} clk" emptySet =
      .ok (⟨[⟨"clk", 10, [0, 5], "clk"⟩], [], [], []⟩,
        [⟨7, "create_clock -period 10 -waveform {a b} clk", .nonNumericInFloatList "a"⟩]) := by
  simp [dispatchCommand, tokenize, tokenizeAux, takeBracket, takeBrace, takeQuoted,
    bareChar, isTclSpace, parseCreateClock, ccScan, stripQuotes, extractNames,
    extractNamesL, matchCollection, collectionKeywords, splitTclList, splitTclCore,
    stripWsL, stripBracesL, isBraceChar, startsWithChar, handleError, parseFloatS,
    parseFloat, parseUnsigned, natOfDigits, parseFloatList, parseFloatListGo, splitWsL,
    mkClockConstraint, ioDelayCmds, exceptionCmds, Except.map, emptySet] <;> norm_num

/-- C3 (amended): a missing required field or a non-numeric token where a
number is required makes strict mode abort with the diagnostic (conjuncts
1-2), and lenient mode skips the command with no record for a non-numeric
or missing `-period` (conjuncts 3-4); an io-delay command whose scan found
no delay value aborts in strict mode and emits zero records with the
missing-delay diagnostic in lenient mode (conjunct 6); a non-numeric bare
token in a timing-exception command makes the scan report it and return no
state (conjunct 7), which the parser turns into no exception record
(conjunct 8), so the command aborts in strict mode and is dropped with the
diagnostic in lenient mode (conjuncts 9-10).  The single exception to
"skipped entirely" is a non-numeric entry in a lenient-mode `-waveform`
list: the error is reported but the clock record is still appended, with
the waveform defaulted (conjunct 5). -/
theorem c3_malformed_commands :
    (dispatchCommand true 7 "create_clock -period 10 -waveform {a b} clk" emptySet =
      .error ⟨7, "create_clock -period 10 -waveform {a b} clk", .nonNumericInFloatList "a"⟩) ∧
    (dispatchCommand true 2 "create_clock -period abc clk" emptySet =
      .error ⟨2, "create_clock -period abc clk", .invalidPeriod "abc"⟩) ∧
    (dispatchCommand false 2 "create_clock -period abc clk" emptySet =
      .ok (emptySet, [⟨2, "create_clock -period abc clk", .invalidPeriod "abc"⟩])) ∧
    (∀ (strict : Bool) (ln : Nat) (raw : String) (ts : List String),
      "-period" ∉ ts → ∀ (r : ClockConstraint) (ds : List Diag),
      parseCreateClock strict ln raw ts ≠ .ok (some r, ds)) ∧
    (dispatchCommand false 7 "create_clock -period 10 -waveform {a b} clk" emptySet =
      .ok (⟨[⟨"clk", 10, [0, 5], "clk"⟩], [], [], []⟩,
        [⟨7, "create_clock -period 10 -waveform {a b} clk", .nonNumericInFloatList "a"⟩])) ∧
    (∀ (ln : Nat) (raw : String) (tokens : List String),
      (ioScan (tokens.drop 1) ⟨"", none, false, false, []⟩).delay = none →
      parseIODelay true ln raw tokens =
        .error ⟨ln, raw, .missingDelayValue (tokens.headD "")⟩ ∧
      parseIODelay false ln raw tokens =
        .ok ([], [⟨ln, raw, .missingDelayValue (tokens.headD "")⟩])) ∧
    (∀ (strict : Bool) (ln : Nat) (raw : String) (tok : String) (rest : List String)
        (st : TEState),
      startsWithChar '-' tok = false → parseFloatS tok = none →
      teScan strict ln raw (tok :: rest) st =
        (handleError strict ln raw (.unexpectedToken tok)).map (fun ds => (none, ds))) ∧
    (∀ (strict : Bool) (ln : Nat) (raw : String) (tokens : List String) (ds : List Diag),
      teScan strict ln raw (tokens.drop 1) ⟨[], [], none⟩ = .ok (none, ds) →
      parseTimingException strict ln raw tokens = .ok (none, ds)) ∧
    (dispatchCommand true 4 "set_max_delay xyz" emptySet =
      .error ⟨4, "set_max_delay xyz", .unexpectedToken "xyz"⟩) ∧
    (dispatchCommand false 4 "set_max_delay xyz" emptySet =
      .ok (emptySet, [⟨4, "set_max_delay xyz", .unexpectedToken "xyz"⟩])) := by
  refine ⟨?_, ?_, ?_, ?_, ?_, ?_, ?_, ?_, ?_, ?_⟩
  · simp [dispatchCommand, tokenize, tokenizeAux, takeBracket, takeBrace, takeQuoted,
      bareChar, isTclSpace, parseCreateClock, ccScan, stripQuotes, extractNames,
      extractNamesL, matchCollection, collectionKeywords, splitTclList, splitTclCore,
      stripWsL, stripBracesL, isBraceChar, startsWithChar, handleError, parseFloatS,
      parseFloat, parseUnsigned, natOfDigits, parseFloatList, parseFloatListGo, splitWsL,
      mkClockConstraint, ioDelayCmds, exceptionCmds, Except.map, emptySet]
  · simp [dispatchCommand, tokenize, tokenizeAux, takeBracket, takeBrace, takeQuoted,
      bareChar, isTclSpace, parseCreateClock, ccScan, stripQuotes, extractNames,
      extractNamesL, matchCollection, collectionKeywords, splitTclList, splitTclCore,
      stripWsL, stripBracesL, isBraceChar, startsWithChar, handleError, parseFloatS,
      parseFloat, parseUnsigned, natOfDigits, ioDelayCmds, exceptionCmds, Except.map,
      emptySet]
  · simp [dispatchCommand, tokenize, tokenizeAux, takeBracket, takeBrace, takeQuoted,
      bareChar, isTclSpace, parseCreateClock, ccScan, stripQuotes, extractNames,
      extractNamesL, matchCollection, collectionKeywords, splitTclList, splitTclCore,
      stripWsL, stripBracesL, isBraceChar, startsWithChar, handleError, parseFloatS,
      parseFloat, parseUnsigned, natOfDigits, ioDelayCmds, exceptionCmds, Except.map,
      emptySet]
  · intro strict ln raw ts hper r ds h
    obtain ⟨st, ds0, hscan, p, hp, _, _, _⟩ :=
      parseCreateClock_ok_shape strict ln raw ts r ds h
    have hnone : st.period = none := by
      simpa using
        (ccScan_inv strict ln raw (ts.drop 1) ⟨none, none, [], none⟩ [] st ds0 hscan).2
          (fun hm => hper (List.drop_subset _ _ hm))
    rw [hnone] at hp
    exact absurd hp (by simp)
  · simp [dispatchCommand, tokenize, tokenizeAux, takeBracket, takeBrace, takeQuoted,
      bareChar, isTclSpace, parseCreateClock, ccScan, stripQuotes, extractNames,
      extractNamesL, matchCollection, collectionKeywords, splitTclList, splitTclCore,
      stripWsL, stripBracesL, isBraceChar, startsWithChar, handleError, parseFloatS,
      parseFloat, parseUnsigned, natOfDigits, parseFloatList, parseFloatListGo, splitWsL,
      mkClockConstraint, ioDelayCmds, exceptionCmds, Except.map, emptySet] <;> norm_num
  · intro ln raw tokens hd
    simp only [List.drop_one] at hd
    constructor <;> simp [parseIODelay, hd, handleError, Except.map]
  · intro strict ln raw tok rest st h1 hv
    have e1 : tok ≠ "-from" := by rintro rfl; exact absurd h1 (by decide)
    have e2 : tok ≠ "-to" := by rintro rfl; exact absurd h1 (by decide)
    have e3 : tok ≠ "-through" := by rintro rfl; exact absurd h1 (by decide)
    have e4 : tok ∉ teBoolFlags := by
      intro hm; simp [teBoolFlags] at hm
      rcases hm with rfl | rfl | rfl | rfl | rfl <;> exact absurd h1 (by decide)
    rw [teScan.eq_def]
    simp [e1, e2, e3, e4, h1, hv, handleError, Except.map]
  · intro strict ln raw tokens ds hscan
    simp only [List.drop_one] at hscan
    simp [parseTimingException, hscan]
  · simp [dispatchCommand, tokenize, tokenizeAux, takeBracket, takeBrace, takeQuoted,
      bareChar, isTclSpace, parseTimingException, teScan, teBoolFlags, exceptionTypeMap,
      mkTimingException, startsWithChar, extractNames, extractNamesL, matchCollection,
      collectionKeywords, splitTclList, splitTclCore, stripWsL, stripBracesL, isBraceChar,
      handleError, parseFloatS, parseFloat, parseUnsigned, natOfDigits, ioDelayCmds,
      exceptionCmds, Except.map, emptySet]
  · simp [dispatchCommand, tokenize, tokenizeAux, takeBracket, takeBrace, takeQuoted,
      bareChar, isTclSpace, parseTimingException, teScan, teBoolFlags, exceptionTypeMap,
      mkTimingException, startsWithChar, extractNames, extractNamesL, matchCollection,
      collectionKeywords, splitTclList, splitTclCore, stripWsL, stripBracesL, isBraceChar,
      handleError, parseFloatS, parseFloat, parseUnsigned, natOfDigits, ioDelayCmds,
      exceptionCmds, Except.map, emptySet]

/-- Witness for C3: the no-`-period` conjunct applied to the bare command
`create_clock`. -/
theorem c3_witness :
    parseCreateClock true 1 "create_clock" ["create_clock"] ≠
      .ok (some ⟨"c", 1, [], ""⟩, []) :=
  c3_malformed_commands.2.2.2.1 true 1 "create_clock" ["create_clock"]
    (by decide) ⟨"c", 1, [], ""⟩ []

/-- C6 (counterexample): in
`set_input_delay -clock clk 1.0 2.0 [get_ports a]` the first bare numeric
token is `1.0` (value 1), but the record's `delay_value` is 2 — each bare
numeric token overwrites the previous one, so the LAST one wins, not the
first as claimed. -/
theorem c6_counterexample :
    parseIODelay false 1 "set_input_delay -clock clk 1.0 2.0 [get_ports a]"
        ["set_input_delay", "-clock", "clk", "1.0", "2.0", "[get_ports a]"] =
      .ok ([⟨"a", "clk", 2, "input", false, false⟩], []) ∧
    parseFloatS "1.0" = some 1 ∧ (2 : ℚ) ≠ 1 := by
  refine ⟨?_, ?_, by norm_num⟩
  · simp [parseIODelay, ioScan, isTclSpace, startsWithChar, extractNames, extractNamesL,
      matchCollection, collectionKeywords, stripWsL, splitTclList, splitTclCore,
      stripBracesL, isBraceChar, ioBoolFlags, parseFloatS, parseFloat, parseUnsigned,
      natOfDigits, buildIODelays, mkIODelay, handleError, Except.map] <;> norm_num
  · simp [parseFloatS, parseFloat, parseUnsigned, natOfDigits]

/-- C6 (amended): a bare numeric token overwrites the delay value held so
far (first conjunct), so the value recorded by
`set_input_delay`/`set_output_delay` is the LAST bare numeric token, as in
the representative command of the counterexample (second conjunct); the
same holds for the timing-exception value, e.g. `set_max_delay 5 3 -from
[get_clocks a]` records value 3, the last bare numeric token (third
conjunct). -/
theorem c6_last_numeric_wins :
    (∀ (tok : String) (rest : List String) (st : IOScanState) (v : ℚ),
      startsWithChar '-' tok = false → startsWithChar '[' tok = false →
      startsWithChar '{' tok = false → parseFloatS tok = some v →
      ioScan (tok :: rest) st = ioScan rest { st with delay := some v }) ∧
    (∀ (strict : Bool) (ln : Nat) (raw : String),
      parseIODelay strict ln raw
          ["set_input_delay", "-clock", "clk", "1.0", "2.0", "[get_ports a]"] =
        .ok ([⟨"a", "clk", 2, "input", false, false⟩], [])) ∧
    (∀ (strict : Bool) (ln : Nat) (raw : String),
      parseTimingException strict ln raw
          ["set_max_delay", "5", "3", "-from", "[get_clocks a]"] =
        .ok (some ⟨"max_delay", ["a"], [], some 3⟩, [])) := by
  refine ⟨ioScan_value, ?_, ?_⟩
  · intro strict ln raw
    simp [parseIODelay, ioScan, isTclSpace, startsWithChar, extractNames, extractNamesL,
      matchCollection, collectionKeywords, stripWsL, splitTclList, splitTclCore,
      stripBracesL, isBraceChar, ioBoolFlags, parseFloatS, parseFloat, parseUnsigned,
      natOfDigits, buildIODelays, mkIODelay, handleError, Except.map] <;> norm_num
  · intro strict ln raw
    simp [parseTimingException, teScan, teBoolFlags, exceptionTypeMap, mkTimingException,
      isTclSpace, startsWithChar, extractNames, extractNamesL, matchCollection,
      collectionKeywords, stripWsL, splitTclList, splitTclCore, stripBracesL, isBraceChar,
      parseFloatS, parseFloat, parseUnsigned, natOfDigits, handleError, Except.map] <;>
      norm_num

/-- Witness for C6: the overwrite step at a concrete state holding value 1
and token `2.0`. -/
theorem c6_witness :
    ioScan ["2.0"] ⟨"", some 1, false, false, []⟩ = ioScan [] ⟨"", some 2, false, false, []⟩ :=
  c6_last_numeric_wins.1 "2.0" [] ⟨"", some 1, false, false, []⟩ 2
    (by decide) (by decide) (by decide)
    (by simp [parseFloatS, parseFloat, parseUnsigned, natOfDigits])

/-- C7 (counterexample): in
`set_input_delay -bogus -max 2.5 [get_ports a]` the unknown flag `-bogus`
unconditionally consumes the following token even though it is the
recognised flag `-max`; the emitted record therefore has
`max_delay = false` although `-max` is present among the tokens. -/
theorem c7_counterexample :
    parseIODelay false 1 "set_input_delay -bogus -max 2.5 [get_ports a]"
        ["set_input_delay", "-bogus", "-max", "2.5", "[get_ports a]"] =
      .ok ([⟨"a", "", 2.5, "input", false, false⟩], []) ∧
    ("-max" ∈ (["set_input_delay", "-bogus", "-max", "2.5", "[get_ports a]"] : List String)) := by
  refine ⟨?_, by decide⟩
  simp [parseIODelay, ioScan, isTclSpace, startsWithChar, extractNames, extractNamesL,
    matchCollection, collectionKeywords, stripWsL, splitTclList, splitTclCore,
    stripBracesL, isBraceChar, ioBoolFlags, parseFloatS, parseFloat, parseUnsigned,
    natOfDigits, buildIODelays, mkIODelay, handleError, Except.map] <;> norm_num

/-- C7 (amended): only `_parse_create_clock` guards the unknown-flag case
on the shape of the following token — an unknown flag consumes only itself
when the next token looks like a flag (conjunct 1) and consumes both
otherwise (conjunct 2); in `_parse_io_delay` (conjunct 3) and
`_parse_timing_exception` (conjunct 4) an unknown flag consumes the
following token unconditionally, so a recognised flag appearing right after
an unknown one IS swallowed there. -/
theorem c7_unknown_flag_consumption :
    (∀ (strict : Bool) (ln : Nat) (raw : String) (tok next : String)
        (rest : List String) (st : CCState) (ds : List Diag),
      startsWithChar '-' tok = true → tok ≠ "-name" → tok ≠ "-period" →
      tok ≠ "-waveform" → startsWithChar '-' next = true →
      ccScan strict ln raw (tok :: next :: rest) st ds =
        ccScan strict ln raw (next :: rest) st ds) ∧
    (∀ (strict : Bool) (ln : Nat) (raw : String) (tok next : String)
        (rest : List String) (st : CCState) (ds : List Diag),
      startsWithChar '-' tok = true → tok ≠ "-name" → tok ≠ "-period" →
      tok ≠ "-waveform" → startsWithChar '-' next = false →
      ccScan strict ln raw (tok :: next :: rest) st ds =
        ccScan strict ln raw rest st ds) ∧
    (∀ (tok next : String) (rest : List String) (st : IOScanState),
      startsWithChar '-' tok = true →
      tok ∉ (["-clock", "-max", "-min", "-reference_pin"] : List String) →
      tok ∉ ioBoolFlags →
      ioScan (tok :: next :: rest) st = ioScan rest st) ∧
    (∀ (strict : Bool) (ln : Nat) (raw : String) (tok next : String)
        (rest : List String) (st : TEState),
      startsWithChar '-' tok = true →
      tok ∉ (["-from", "-to", "-through"] : List String) → tok ∉ teBoolFlags →
      teScan strict ln raw (tok :: next :: rest) st = teScan strict ln raw rest st) := by
  refine ⟨?_, ?_, ?_, ?_⟩
  · intro strict ln raw tok next rest st ds h1 e1 e2 e3 hn
    exact ccScan_unknown_flag_keep strict ln raw tok next rest st ds h1 e1 e2 e3 hn
  · intro strict ln raw tok next rest st ds h1 e1 e2 e3 hn
    exact ccScan_unknown_flag_consume strict ln raw tok next rest st ds h1 e1 e2 e3 hn
  · intro tok next rest st h1 h2 h3
    exact ioScan_unknown_flag tok next rest st h1 h2 h3
  · intro strict ln raw tok next rest st h1 h2 h3
    exact teScan_unknown_flag strict ln raw tok next rest st h1 h2 h3

/-- Witness for C7: the io-delay conjunct at `-bogus` followed by the
recognised flag `-max`: both are consumed, the state is untouched. -/
theorem c7_witness :
    ioScan ["-bogus", "-max"] ⟨"", none, false, false, []⟩ =
      ioScan [] ⟨"", none, false, false, []⟩ :=
  c7_unknown_flag_consumption.2.2.1 "-bogus" "-max" [] ⟨"", none, false, false, []⟩
    (by decide) (by decide) (by decide)

/-- C10: every `IODelay` record the io-delay parser ever emits has a
non-negative delay value, because a bare token starting with `-` — such as
`-2.5` — never reaches the numeric branch (first conjunct); such a token is
treated as an unknown flag and unconditionally consumes the following token
(second conjunct); and a command whose only numeric token is negative is
reported as missing its delay value and emits no records (third conjunct:
note `-2.5` also swallows `[get_ports a]`). -/
theorem c10_negative_delay_never_recorded :
    (∀ (strict : Bool) (ln : Nat) (raw : String) (tokens : List String)
        (out : List IODelay) (ds : List Diag),
      parseIODelay strict ln raw tokens = .ok (out, ds) →
      ∀ r ∈ out, 0 ≤ r.delay_value) ∧
    (∀ (tok next : String) (rest : List String) (st : IOScanState),
      startsWithChar '-' tok = true →
      tok ∉ (["-clock", "-max", "-min", "-reference_pin"] : List String) →
      tok ∉ ioBoolFlags →
      ioScan (tok :: next :: rest) st = ioScan rest st) ∧
    (parseIODelay false 1 "set_input_delay -clock clk -2.5 [get_ports a]"
        ["set_input_delay", "-clock", "clk", "-2.5", "[get_ports a]"] =
      .ok ([], [⟨1, "set_input_delay -clock clk -2.5 [get_ports a]",
        .missingDelayValue "set_input_delay"⟩])) := by
  refine ⟨?_, ?_, ?_⟩
  · intro strict ln raw tokens out ds h r hr
    obtain ⟨hnone, hsome⟩ := parseIODelay_ok_shape strict ln raw tokens out ds h
    cases hd : (ioScan (tokens.drop 1) ⟨"", none, false, false, []⟩).delay with
    | none =>
      rw [hnone hd] at hr
      exact absurd hr (by simp)
    | some v =>
      rw [hsome v hd] at hr
      simp only [List.mem_map] at hr
      obtain ⟨p, _, e⟩ := hr
      have hv : 0 ≤ v :=
        ioScan_delay_nonneg (tokens.drop 1) ⟨"", none, false, false, []⟩ (by simp) v hd
      rw [← e]
      exact hv
  · intro tok next rest st h1 h2 h3
    exact ioScan_unknown_flag tok next rest st h1 h2 h3
  · simp [parseIODelay, ioScan, isTclSpace, startsWithChar, extractNames, extractNamesL,
      matchCollection, collectionKeywords, stripWsL, splitTclList, splitTclCore,
      stripBracesL, isBraceChar, ioBoolFlags, parseFloatS, parseFloat, parseUnsigned,
      natOfDigits, buildIODelays, mkIODelay, handleError, Except.map]

/-- Witness for C10: the unknown-flag conjunct at the negative literal
`-2.5`, which swallows the following pin collection. -/
theorem c10_witness :
    ioScan ["-2.5", "[get_ports a]"] ⟨"", none, false, false, []⟩ =
      ioScan [] ⟨"", none, false, false, []⟩ :=
  c10_negative_delay_never_recorded.2.1 "-2.5" "[get_ports a]" []
    ⟨"", none, false, false, []⟩ (by decide) (by decide) (by decide)

/-- Witness for C4: the strict conjunct at line 3 with no following
commands. -/
theorem c4_witness :
    dispatchAll true [(3, "create_clock -name clk_bad [get_ports c]")] emptySet [] =
      .error ⟨3, "create_clock -name clk_bad [get_ports c]", .missingPeriod⟩ :=
  (c4_strict_abort_lenient_skip 3 [] emptySet []).1

/-- Witness for C8: the comment-start characterisation at the clear state. -/
theorem c8_witness : stripCommentAux ['#'] 0 0 false = [] :=
  (c8_comment_start.1 [] 0 0 false).mpr ⟨rfl, rfl, rfl⟩
